import Mathlib

/-!
Verification development for the video-asr-summary repository.

Python strings are modelled as `List Char` (`PyStr`); machine integers and
millisecond durations are `Nat` (all durations in the source are non-negative
integers after the source's own conversions); fallible Python code returns
`Except`; external collaborators (pydub's `detect_silence`, the `re`/`json`
standard libraries, the HTTP backends) are modelled as explicit inputs or
abstract function parameters, exactly at the interface the source consumes.
I/O performed by a function is recorded as an explicit effect list so that
ordering of validation versus I/O is visible.
-/

/-- Python `str` modelled as a list of characters. -/
abbrev PyStr := List Char

/-- The characters Python's default `str.strip()` removes and `re`'s `\s`
matches (ASCII subset used by the source's data). -/
def isPySpace (c : Char) : Bool :=
  c = ' ' || c = '\t' || c = '\n' || c = '\r' || c = '\x0b' || c = '\x0c'

/-- Python `str.lstrip()`. -/
def pyLStrip (s : PyStr) : PyStr := s.dropWhile isPySpace

/-- Python `str.rstrip()`. -/
def pyRStrip (s : PyStr) : PyStr := (s.reverse.dropWhile isPySpace).reverse

/-- Python `str.strip()`. -/
def pyStrip (s : PyStr) : PyStr := pyRStrip (pyLStrip s)

/-- Python `str.lower()` (ASCII). -/
def pyLower (s : PyStr) : PyStr := s.map Char.toLower

/-- Python `sep.join(parts)`. -/
def pyJoin (sep : PyStr) : List PyStr → PyStr
  | [] => []
  | [x] => x
  | x :: y :: xs => x ++ sep ++ pyJoin sep (y :: xs)

/-! ## Audio segmenter: `src/video_asr_summary/audio.py`, `split_audio_on_silence` -/

/-- The keyword parameters of `split_audio_on_silence`, after the source's own
conversion `max_duration_ms = int(max(max_duration, 0) * 1000)` (hence a `Nat`).
All other duration parameters are non-negative integers in every valid call. -/
structure SplitParams where
  maxDurationMs : Nat
  minSilenceLenMs : Nat
  keepSilenceMs : Nat
  minExportDurationMs : Nat
  silentRmsThreshold : Nat

/-- The decoded audio buffer (`AudioSegment.from_file`): its length in
milliseconds and the RMS loudness of each millisecond slice `[startMs, endMs)`
(`audio[start:end].rms` in the source). -/
structure AudioBuffer where
  totalMs : Nat
  rms : Nat → Nat → Nat

/-- `tolerance_ms = max(min_silence_len_ms, int(max_duration_ms * 0.2))`
(audio.py line 162); the float multiply-and-truncate is `/ 5` on `Nat`. -/
def toleranceMs (p : SplitParams) : Nat :=
  max p.minSilenceLenMs (p.maxDurationMs / 5)

/-- `min_chunk_ms = min(max_duration_ms, max(500, int(max_duration_ms * 0.25)))`
(audio.py line 163). -/
def minChunkMs (p : SplitParams) : Nat :=
  min p.maxDurationMs (max 500 (p.maxDurationMs / 4))

/-- The `for idx in range(silence_idx, total_silences)` scan of audio.py lines
189-205.  `rem` is `silence_ranges.drop idx` for the running absolute index
`idx`; `silIdx` accumulates the `silence_idx = idx + 1` skip assignments and
`best` the `(best_idx, best_split)` pair.  Returns the final `silence_idx`
accumulator and the best candidate. -/
def scanSilences (segStart minChunk targetEnd tol : Nat) :
    List (Nat × Nat) → Nat → Nat → Option (Nat × Nat) → Nat × Option (Nat × Nat)
  | [], _, silIdx, best => (silIdx, best)
  | (s, e) :: rest, idx, silIdx, best =>
    if e ≤ segStart then
      scanSilences segStart minChunk targetEnd tol rest (idx + 1) (idx + 1) best
    else if s < segStart + minChunk then
      scanSilences segStart minChunk targetEnd tol rest (idx + 1) silIdx best
    else if s ≤ targetEnd then
      scanSilences segStart minChunk targetEnd tol rest (idx + 1) silIdx (some (idx, (s + e) / 2))
    else if s ≤ targetEnd + tol ∧ best = none then
      (silIdx, some (idx, (s + e) / 2))
    else
      (silIdx, best)

/-- The scan as invoked by one iteration of the sweep (audio.py line 189). -/
def sweepScan (buf : AudioBuffer) (p : SplitParams) (silences : List (Nat × Nat))
    (segStart silenceIdx : Nat) : Nat × Option (Nat × Nat) :=
  scanSilences segStart (minChunkMs p) (min (segStart + p.maxDurationMs) buf.totalMs)
    (toleranceMs p) (silences.drop silenceIdx) silenceIdx silenceIdx none

/-- The segment end computed by one iteration of the `while` loop (audio.py
lines 185-217): candidate split or hard cut at the target, the forced
minimum-size segment when that is not ahead of the cursor, and the
keep-silence extension. -/
def sweepEnd (buf : AudioBuffer) (p : SplitParams) (silences : List (Nat × Nat))
    (segStart silenceIdx : Nat) : Nat :=
  let e0 :=
    match (sweepScan buf p silences segStart silenceIdx).2 with
    | some (_, bestSplit) => max (segStart + minChunkMs p) bestSplit
    | none => min (segStart + p.maxDurationMs) buf.totalMs
  let e1 :=
    if e0 ≤ segStart then min buf.totalMs (segStart + max 100 (p.maxDurationMs / 4)) else e0
  if p.keepSilenceMs ≠ 0 ∧ e1 < buf.totalMs then min buf.totalMs (e1 + p.keepSilenceMs) else e1

/-- The `silence_idx` value carried to the next iteration: `best_idx + 1` when a
candidate was chosen (audio.py line 208), else the skip-advanced pointer. -/
def sweepNextIdx (buf : AudioBuffer) (p : SplitParams) (silences : List (Nat × Nat))
    (segStart silenceIdx : Nat) : Nat :=
  match sweepScan buf p silences segStart silenceIdx with
  | (_, some (bestIdx, _)) => bestIdx + 1
  | (skipIdx, none) => skipIdx

/-- `len(audio[start_ms:end_ms])`: pydub slicing clamps to the buffer. -/
def chunkDurationMs (buf : AudioBuffer) (startMs endMs : Nat) : Nat :=
  min endMs buf.totalMs - startMs

/-- The near-silent drop test of `export_chunk` (audio.py lines 169-173):
`True` when the fragment is dropped rather than exported. -/
def dropChunk (buf : AudioBuffer) (p : SplitParams) (startMs endMs : Nat) : Prop :=
  let d := chunkDurationMs buf startMs endMs
  let r := buf.rms startMs endMs
  (d < max p.minExportDurationMs 1 ∧ r ≤ p.silentRmsThreshold) ∨
    (r ≤ p.silentRmsThreshold ∧ d < p.minSilenceLenMs)

instance (buf : AudioBuffer) (p : SplitParams) (startMs endMs : Nat) :
    Decidable (dropChunk buf p startMs endMs) := by
  unfold dropChunk; infer_instance

/-- One region `[startMs, endMs)` produced by the sweep; `exportIndex` is the
1-based export counter for exported chunks and `none` for dropped near-silent
fragments. -/
structure Segment where
  startMs : Nat
  endMs : Nat
  exportIndex : Option Nat
deriving DecidableEq, Repr

/-- The `while segment_start < total_ms` sweep (audio.py lines 184-224), as a
fuel-indexed structural recursion; the cursor advances by at least 1 ms per
iteration (proved below), so fuel `buf.totalMs` always suffices and the fuel
argument is semantically inert (`sweepAux_fuel_irrelevant`). -/
def sweepAux (buf : AudioBuffer) (p : SplitParams) (silences : List (Nat × Nat)) :
    Nat → Nat → Nat → Nat → List Segment
  | 0, _, _, _ => []
  | fuel + 1, segStart, silenceIdx, segIndex =>
    if segStart < buf.totalMs then
      let segEnd := sweepEnd buf p silences segStart silenceIdx
      let nextIdx := sweepNextIdx buf p silences segStart silenceIdx
      if dropChunk buf p segStart segEnd then
        { startMs := segStart, endMs := segEnd, exportIndex := none } ::
          sweepAux buf p silences fuel segEnd nextIdx segIndex
      else
        { startMs := segStart, endMs := segEnd, exportIndex := some segIndex } ::
          sweepAux buf p silences fuel segEnd nextIdx (segIndex + 1)
    else []

/-- All segments (exported and dropped) produced by the sweep, started as in
the source with `segment_start = 0`, `silence_idx = 0`, `segment_index = 1`. -/
def sweepSegments (buf : AudioBuffer) (p : SplitParams) (silences : List (Nat × Nat)) :
    List Segment :=
  sweepAux buf p silences buf.totalMs 0 0 1

/-- Stable sort of the detected silence ranges by start
(`silence_ranges.sort(key=lambda pair: pair[0])`, audio.py line 153). -/
def insertByStart (pr : Nat × Nat) : List (Nat × Nat) → List (Nat × Nat)
  | [] => [pr]
  | q :: rest => if q.1 ≤ pr.1 then q :: insertByStart pr rest else pr :: q :: rest

/-- Insertion sort by interval start; stable, like Python's `list.sort`. -/
def sortSilences : List (Nat × Nat) → List (Nat × Nat)
  | [] => []
  | pr :: rest => insertByStart pr (sortSilences rest)

/-- Length of the longest detected silence interval. -/
def maxSilenceLenMs : List (Nat × Nat) → Nat
  | [] => 0
  | (s, e) :: rest => max (e - s) (maxSilenceLenMs rest)

/-- I/O effects of `split_audio_on_silence`, in program order. -/
inductive SplitEff where
  | readSource
  | detectSilence
  | makeDir
  | exportChunk (startMs endMs : Nat)
deriving DecidableEq, Repr

/-- What the function returns: the original file (fast path) or the chunk
files. -/
inductive SplitResult where
  | originalFile
  | chunkFiles (segments : List Segment)
deriving DecidableEq, Repr

/-- A run of `split_audio_on_silence`: the I/O it performed and its outcome. -/
structure SplitRun where
  effects : List SplitEff
  result : Except String SplitResult

/-- `split_audio_on_silence` (audio.py lines 116-226).  `silences` is the
output of the external `detect_silence` routine on `buf` (a pure collaborator);
`outputDirGiven` records whether the caller supplied `output_dir` (only then is
`mkdir` run, line 156-157).  Note the source decodes the audio file (line 137)
before validating `max_duration` (lines 139-141). -/
def split_audio_on_silence (buf : AudioBuffer) (silences : List (Nat × Nat))
    (p : SplitParams) (outputDirGiven : Bool) : SplitRun :=
  if p.maxDurationMs = 0 then
    { effects := [.readSource], result := .error "max_duration must be positive" }
  else if buf.totalMs ≤ p.maxDurationMs then
    { effects := [.readSource], result := .ok .originalFile }
  else
    let segs := sweepSegments buf p (sortSilences silences)
    { effects := [.readSource, .detectSilence] ++
        (if outputDirGiven then [.makeDir] else []) ++
        segs.filterMap (fun sg =>
          if sg.exportIndex.isSome then some (.exportChunk sg.startMs sg.endMs) else none),
      result := .ok (.chunkFiles segs) }

/-! ## `extract_video_frames` (audio.py lines 74-113) -/

/-- I/O effects of `extract_video_frames`, in program order. -/
inductive FrameEff where
  | makeDir
  | runFfmpeg
  | globFrames
deriving DecidableEq, Repr

/-- `extract_video_frames`: the `interval_seconds <= 0` check (line 87) runs
before any I/O (mkdir line 92, ffmpeg line 108, glob line 112).  The float
`interval_seconds` is modelled as an `Int`; the source only tests its sign. -/
def extract_video_frames (intervalSeconds : Int) : List FrameEff × Except String Unit :=
  if intervalSeconds ≤ 0 then ([], .error "interval_seconds must be positive")
  else ([.makeDir, .runFfmpeg, .globFrames], .ok ())

/-! ## Pipeline: `src/video_asr_summary/pipeline.py` -/

/-- A raised Python exception: `str(exc)` and `exc.__class__.__name__` (Python
class names are never empty). -/
structure PyExc where
  message : PyStr
  className : PyStr
  className_ne : className ≠ []

/-- `str(exc) or exc.__class__.__name__` (pipeline.py line 111). -/
def excString (e : PyExc) : PyStr :=
  if e.message = [] then e.className else e.message

/-- The record returned by `process_video` (pipeline.py lines 116-121); the
`summarizer_error` key is present exactly when the caught error is non-`None`,
modelled as an `Option`. -/
structure PipelineResult where
  transcript : PyStr
  summary : Option PyStr
  summarizer_error : Option PyStr
deriving DecidableEq, Repr

/-- `"\n\n".join(part.strip() for part in transcripts if part.strip())`
(pipeline.py line 73; line 74's `if not transcript: transcript = ""` is a
no-op on this representation). -/
def assembleTranscript (parts : List PyStr) : PyStr :=
  pyJoin ("\n\n".toList) ((parts.filter (fun part => !(pyStrip part).isEmpty)).map pyStrip)

/-- The guarded correction step of pipeline.py lines 83-96: the correction
stage runs only when image context is enabled, the backend is `"local"`, and
the transcript is non-empty after stripping; `correctStage` is
`_apply_image_context_corrections`, which may raise. -/
def correctionOutcome (backend : PyStr) (enableImageContext : Bool)
    (correctStage : PyStr → Except PyExc PyStr) (transcript : PyStr) :
    Except PyExc PyStr :=
  if enableImageContext ∧ backend = "local".toList ∧ pyStrip transcript ≠ [] then
    correctStage transcript
  else .ok transcript

/-- `process_video` (pipeline.py lines 12-123) from the point where the chunk
transcripts are in hand: backend-tag dispatch (lines 47-61, an unsupported tag
raises `ValueError`), transcript assembly (line 73), the optional visual
correction (lines 83-96, failures propagate), and the summarizer call whose
failures are caught into `summarizer_error` (lines 107-111).  `chunkTexts` are
the per-chunk ASR outputs in chunk order (each `asr.transcribe` having
succeeded; an ASR failure propagates before this point). -/
def process_video (asrBackend : PyStr) (enableImageContext : Bool)
    (chunkTexts : List PyStr) (correctStage : PyStr → Except PyExc PyStr)
    (summarize : PyStr → Except PyExc PyStr) : Except PyExc PipelineResult :=
  let backend := pyLower asrBackend
  if backend = "bailian".toList ∨ backend = "local".toList then
    let transcript := assembleTranscript chunkTexts
    match correctionOutcome backend enableImageContext correctStage transcript with
    | .error e => .error e
    | .ok corrected =>
      match summarize corrected with
      | .ok s => .ok ⟨corrected, some s, none⟩
      | .error e => .ok ⟨corrected, none, some (excString e)⟩
  else
    .error ⟨"Unsupported ASR backend: ".toList ++ asrBackend, "ValueError".toList, by decide⟩

/-- The image-context list built by `_apply_image_context_corrections`
(pipeline.py lines 167-181): each frame's description is written to a text
file and read back (`readBackFails f` models an `OSError` on that read, which
skips the frame); non-empty stripped descriptions are kept in frame order. -/
def imageContextOf (frames : List Nat) (describe : Nat → PyStr)
    (readBackFails : Nat → Bool) : List PyStr :=
  frames.filterMap (fun f =>
    if readBackFails f then none
    else if pyStrip (describe f) = [] then none
    else some (pyStrip (describe f)))

/-- A run of `_apply_image_context_corrections`: its outcome, and whether the
scoped frame temporary directory (created only when the caller supplied no
frame directory) was cleaned up. -/
structure CorrectionRun where
  result : Except PyExc PyStr
  tempDirCleaned : Bool

/-- `_apply_image_context_corrections` (pipeline.py lines 126-199).  `frames`
is the (successful) output of `extract_video_frames`; `correct` is the
corrector backend call, whose failure is not caught — only the `finally`
block runs on that path, so the temp directory is cleaned on every exit. -/
def apply_image_context_corrections (transcript : PyStr) (frameOutputDirGiven : Bool)
    (frames : List Nat) (describe : Nat → PyStr) (readBackFails : Nat → Bool)
    (correct : PyStr → List PyStr → Except PyExc PyStr) : CorrectionRun :=
  let tempCleaned := !frameOutputDirGiven
  if frames = [] then ⟨.ok transcript, tempCleaned⟩
  else
    let ctx := imageContextOf frames describe readBackFails
    if ctx = [] then ⟨.ok transcript, tempCleaned⟩
    else ⟨correct transcript ctx, tempCleaned⟩

/-! ## Corrector output extraction:
`src/video_asr_summary/summarizer.py`, `TranscriptCorrector._extract_corrected_transcript` -/

/-- A JSON value as the extractor inspects it: a string or anything else. -/
inductive PyVal where
  | str (s : PyStr)
  | other
deriving DecidableEq, Repr

/-- A parsed JSON document: a dict (association list of keys to values) or a
non-dict value. -/
inductive PyObj where
  | dict (entries : List (PyStr × PyVal))
  | nonDict
deriving DecidableEq, Repr

/-- The external JSON machinery (`json.loads` and `json_repair.loads`), each
either returning a parsed object or raising (`.error ()`). -/
structure JsonLib where
  loads : PyStr → Except Unit PyObj
  repair : PyStr → Except Unit PyObj

/-- Python `dict.get`. -/
def dictGet : List (PyStr × PyVal) → PyStr → Option PyVal
  | [], _ => none
  | (k, v) :: rest, key => if k = key then some v else dictGet rest key

/-- `TranscriptCorrector._parse_candidate` (summarizer.py lines 211-223):
`json.loads`, falling back to `json_repair` only on a decode error; a
successful parse that is not a dict yields `None`. -/
def parseCandidate (lib : JsonLib) (candidate : PyStr) : Option (List (PyStr × PyVal)) :=
  match lib.loads candidate with
  | .ok (.dict d) => some d
  | .ok .nonDict => none
  | .error _ =>
    match lib.repair candidate with
    | .ok (.dict d) => some d
    | .ok .nonDict => none
    | .error _ => none

/-- First index at or after `idx` where `pat` occurs in the remaining text. -/
def findSubAux (pat : PyStr) (idx : Nat) : PyStr → Option Nat
  | [] => if pat.isPrefixOf [] then some idx else none
  | c :: rest =>
    if pat.isPrefixOf (c :: rest) then some idx else findSubAux pat (idx + 1) rest

/-- The opening/closing fence delimiter. -/
def fenceTicks : PyStr := "```".toList

/-- The optional `json` tag after the opening fence. -/
def fenceJsonTag : PyStr := "json".toList

/-- `re.search(r"```(?:json)?\s*(.*?)```", text, flags=re.DOTALL)` and its
`group(1)` (summarizer.py line 184).  For this fixed pattern the leftmost
match anchors at the first triple backtick; the greedy optional `json` tag and
`\s*` are consumed, and the lazy group ends at the next triple backtick.  If no
closing fence follows, no later start position can succeed either (the skipped
tag and whitespace contain no backticks), so the whole search fails. -/
def fencedSearch (text : PyStr) : Option PyStr :=
  match findSubAux fenceTicks 0 text with
  | none => none
  | some i =>
    let afterOpen := text.drop (i + 3)
    let afterTag := if fenceJsonTag.isPrefixOf afterOpen then afterOpen.drop 4 else afterOpen
    let body := afterTag.dropWhile isPySpace
    match findSubAux fenceTicks 0 body with
    | none => none
    | some j => some (body.take j)

/-- First index at or after `idx` where character `c` occurs. -/
def firstCharIdx (c : Char) (idx : Nat) : PyStr → Option Nat
  | [] => none
  | d :: rest => if d = c then some idx else firstCharIdx c (idx + 1) rest

/-- Last index where character `c` occurs. -/
def lastCharIdx (c : Char) (s : PyStr) : Option Nat :=
  match firstCharIdx c 0 s.reverse with
  | none => none
  | some k => some (s.length - 1 - k)

/-- The opening brace character. -/
def openBrace : Char := '\x7b'

/-- The closing brace character. -/
def closeBrace : Char := '\x7d'

/-- `re.search(r"\x7b.*\x7d", content, flags=re.DOTALL)` and its `group(0)`
(summarizer.py line 190): greedy, so the match runs from the first opening
brace to the last closing brace after it, if any. -/
def structuredSearch (content : PyStr) : Option PyStr :=
  match firstCharIdx openBrace 0 content, lastCharIdx closeBrace content with
  | some i, some j => if i < j then some ((content.drop i).take (j - i + 1)) else none
  | _, _ => none

/-- The `text` value of `_extract_corrected_transcript` after fence handling
(summarizer.py lines 183-186): the stripped fenced body when a fenced block is
present, otherwise the stripped response. -/
def extractedText (content : PyStr) : PyStr :=
  match fencedSearch (pyStrip content) with
  | some g => pyStrip g
  | none => pyStrip content

/-- The key the extractor looks up. -/
def keyCorrected : PyStr := "corrected_transcript".toList

/-- The `for candidate in candidates` loop of summarizer.py lines 196-205:
skip empty candidates, parse, and return the stripped non-empty
`corrected_transcript` string if present. -/
def firstCorrected (lib : JsonLib) : List PyStr → Option PyStr
  | [] => none
  | c :: rest =>
    let cand := pyStrip c
    if cand = [] then firstCorrected lib rest
    else
      match parseCandidate lib cand with
      | none => firstCorrected lib rest
      | some d =>
        match dictGet d keyCorrected with
        | some (.str v) => if pyStrip v ≠ [] then some (pyStrip v) else firstCorrected lib rest
        | _ => firstCorrected lib rest

/-- The `RuntimeError` message raised on an empty payload. -/
def invalidPayloadMsg : PyStr :=
  "Transcript correction response payload is invalid JSON".toList

/-- The `candidates` list of summarizer.py lines 188-194: the (fence-handled)
text, plus the brace-delimited snippet of the raw response when no fence
matched and the stripped snippet is non-empty and new. -/
def extractCandidates (content : PyStr) : List PyStr :=
  let text := extractedText content
  match fencedSearch (pyStrip content) with
  | some _ => [text]
  | none =>
    match structuredSearch content with
    | some snip =>
      let snippet := pyStrip snip
      if snippet ≠ [] ∧ snippet ≠ text then [text, snippet] else [text]
    | none => [text]

/-- `TranscriptCorrector._extract_corrected_transcript` (summarizer.py lines
181-209): fence extraction, the candidate list, the candidate loop, the
fallback to `text`, and the `RuntimeError` when `text` is empty. -/
def extract_corrected_transcript (lib : JsonLib) (content : PyStr) :
    Except PyStr PyStr :=
  let text := extractedText content
  match firstCorrected lib (extractCandidates content) with
  | some v => .ok v
  | none => if text ≠ [] then .ok text else .error invalidPayloadMsg

/-! ## Properties of the sweep -/

/-- The segment list `segs`, read from cursor `c`, is contiguous, has only
forward-moving non-empty segments, and ends exactly at `total`. -/
def chainCovers (total : Nat) : Nat → List Segment → Bool
  | c, [] => c == total
  | c, sg :: rest => (sg.startMs == c) && decide (c < sg.endMs) && chainCovers total sg.endMs rest

/-- What the scan guarantees about a recorded candidate: its interval is one of
the detected silences, starts at least `minChunk` past the cursor and at most
`tol` past the target, and the split is the interval midpoint. -/
def candOk (L : List (Nat × Nat)) (segStart minChunk targetEnd tol : Nat) :
    Option (Nat × Nat) → Prop
  | none => True
  | some (_, sp) =>
    ∃ s e, (s, e) ∈ L ∧ segStart + minChunk ≤ s ∧ s ≤ targetEnd + tol ∧ sp = (s + e) / 2

lemma scanSilences_candOk (L : List (Nat × Nat)) (segStart minChunk targetEnd tol : Nat) :
    ∀ (rem : List (Nat × Nat)) (idx silIdx : Nat) (best : Option (Nat × Nat)),
      rem ⊆ L → candOk L segStart minChunk targetEnd tol best →
      candOk L segStart minChunk targetEnd tol
        (scanSilences segStart minChunk targetEnd tol rem idx silIdx best).2 := by
  intro rem
  induction rem with
  | nil => intro idx silIdx best _ hbest; simpa [scanSilences] using hbest
  | cons hd tl ih =>
    intro idx silIdx best hsub hbest
    obtain ⟨s, e⟩ := hd
    have hsubtl : tl ⊆ L := fun x hx => hsub (List.mem_cons_of_mem _ hx)
    have hmem : (s, e) ∈ L := hsub (List.mem_cons_self _ _)
    simp only [scanSilences]
    split_ifs with h1 h2 h3 h4
    · exact ih (idx + 1) (idx + 1) best hsubtl hbest
    · exact ih (idx + 1) silIdx best hsubtl hbest
    · exact ih (idx + 1) silIdx _ hsubtl ⟨s, e, hmem, by omega, by omega, rfl⟩
    · exact ⟨s, e, hmem, by omega, h4.1, rfl⟩
    · exact hbest

lemma sweepScan_candOk (buf : AudioBuffer) (p : SplitParams) (silences : List (Nat × Nat))
    (segStart silenceIdx : Nat) :
    candOk silences segStart (minChunkMs p) (min (segStart + p.maxDurationMs) buf.totalMs)
      (toleranceMs p) (sweepScan buf p silences segStart silenceIdx).2 :=
  scanSilences_candOk _ _ _ _ _ _ _ _ _ (List.drop_subset _ _) trivial

/-- The forced-minimum and keep-silence post-processing applied to a raw
segment end `e0` (audio.py lines 213-217).  These three lemmas characterise
the post-processed end for an arbitrary `e0`. -/
lemma postSteps_le (total segStart m k e0 : Nat) (h0 : e0 ≤ total) :
    (if k ≠ 0 ∧ (if e0 ≤ segStart then min total (segStart + max 100 m) else e0) < total
     then min total ((if e0 ≤ segStart then min total (segStart + max 100 m) else e0) + k)
     else (if e0 ≤ segStart then min total (segStart + max 100 m) else e0)) ≤ total := by
  split_ifs <;> first | exact min_le_left _ _ | exact h0

lemma postSteps_gt (total segStart m k e0 : Nat) (htot : segStart < total) :
    segStart <
      (if k ≠ 0 ∧ (if e0 ≤ segStart then min total (segStart + max 100 m) else e0) < total
       then min total ((if e0 ≤ segStart then min total (segStart + max 100 m) else e0) + k)
       else (if e0 ≤ segStart then min total (segStart + max 100 m) else e0)) := by
  have hm : segStart < segStart + max 100 m :=
    Nat.lt_add_of_pos_right (lt_of_lt_of_le (by norm_num) (le_max_left 100 m))
  split_ifs with h1 h2 h3
  · exact lt_min htot (lt_of_lt_of_le (lt_min htot hm) (Nat.le_add_right _ _))
  · exact lt_min htot hm
  · exact lt_min htot (lt_of_lt_of_le (not_le.mp h1) (Nat.le_add_right _ _))
  · exact not_le.mp h1

lemma postSteps_dur (total segStart m k e0 B : Nat) (hforce : segStart < e0)
    (hbound : e0 ≤ segStart + B) :
    (if k ≠ 0 ∧ (if e0 ≤ segStart then min total (segStart + max 100 m) else e0) < total
     then min total ((if e0 ≤ segStart then min total (segStart + max 100 m) else e0) + k)
     else (if e0 ≤ segStart then min total (segStart + max 100 m) else e0)) - segStart ≤
      B + k := by
  split_ifs with h1 h2 h3
  · exact absurd h1 (not_le.mpr hforce)
  · exact absurd h1 (not_le.mpr hforce)
  · have h5 : min total (e0 + k) ≤ e0 + k := min_le_right _ _
    omega
  · omega

/-- Progress: every iteration moves the cursor strictly forward, whatever the
parameters and silence list (the forced-minimum branch guarantees it). -/
lemma sweepEnd_gt (buf : AudioBuffer) (p : SplitParams) (silences : List (Nat × Nat))
    (segStart silenceIdx : Nat) (h : segStart < buf.totalMs) :
    segStart < sweepEnd buf p silences segStart silenceIdx := by
  unfold sweepEnd
  rcases hsc : (sweepScan buf p silences segStart silenceIdx).2 with _ | ⟨bi, sp⟩
  · exact postSteps_gt buf.totalMs segStart (p.maxDurationMs / 4) p.keepSilenceMs _ h
  · exact postSteps_gt buf.totalMs segStart (p.maxDurationMs / 4) p.keepSilenceMs _ h

/-- The length of every detected silence interval is bounded by the longest. -/
lemma len_le_maxSilenceLen (L : List (Nat × Nat)) (s e : Nat) (h : (s, e) ∈ L) :
    e - s ≤ maxSilenceLenMs L := by
  induction L with
  | nil => cases h
  | cons hd tl ih =>
    obtain ⟨a, b⟩ := hd
    simp only [maxSilenceLenMs]
    rcases List.mem_cons.mp h with heq | htl
    · cases heq
      exact le_max_left _ _
    · exact le_trans (ih htl) (le_max_right _ _)

/-- Boundedness: with silences detected inside the buffer, every iteration's
segment end stays within the buffer. -/
lemma sweepEnd_le (buf : AudioBuffer) (p : SplitParams) (silences : List (Nat × Nat))
    (segStart silenceIdx : Nat)
    (hv : ∀ pr ∈ silences, pr.1 < pr.2 ∧ pr.2 ≤ buf.totalMs)
    (_h : segStart < buf.totalMs) :
    sweepEnd buf p silences segStart silenceIdx ≤ buf.totalMs := by
  have hcand := sweepScan_candOk buf p silences segStart silenceIdx
  unfold sweepEnd
  rcases hsc : (sweepScan buf p silences segStart silenceIdx).2 with _ | ⟨bi, sp⟩
  · exact postSteps_le buf.totalMs segStart (p.maxDurationMs / 4) p.keepSilenceMs _
      (min_le_right _ _)
  · rw [hsc] at hcand
    obtain ⟨s, e, hmem, hminc, hstol, hsp⟩ := hcand
    obtain ⟨hse, hetot⟩ := hv (s, e) hmem
    simp only at hse hetot
    have h1 : segStart + minChunkMs p ≤ buf.totalMs := by omega
    have h2 : sp ≤ buf.totalMs := by omega
    exact postSteps_le buf.totalMs segStart (p.maxDurationMs / 4) p.keepSilenceMs _
      (max_le h1 h2)

/-- Duration bound actually enforced by one iteration: at most
`maxDurationMs + toleranceMs + half the longest silence + keepSilenceMs`. -/
lemma sweepEnd_duration (buf : AudioBuffer) (p : SplitParams) (silences : List (Nat × Nat))
    (segStart silenceIdx : Nat) (hmd : 1 ≤ p.maxDurationMs)
    (hv : ∀ pr ∈ silences, pr.1 < pr.2 ∧ pr.2 ≤ buf.totalMs)
    (h : segStart < buf.totalMs) :
    sweepEnd buf p silences segStart silenceIdx - segStart ≤
      p.maxDurationMs + toleranceMs p + maxSilenceLenMs silences / 2 + p.keepSilenceMs := by
  have hcand := sweepScan_candOk buf p silences segStart silenceIdx
  have hone : 1 ≤ minChunkMs p :=
    le_min hmd (le_trans (by norm_num) (le_max_left 500 (p.maxDurationMs / 4)))
  have hmle : minChunkMs p ≤ p.maxDurationMs := min_le_left _ _
  unfold sweepEnd
  rcases hsc : (sweepScan buf p silences segStart silenceIdx).2 with _ | ⟨bi, sp⟩
  · have hforce : segStart < min (segStart + p.maxDurationMs) buf.totalMs :=
      lt_min (by omega) h
    have hbound : min (segStart + p.maxDurationMs) buf.totalMs ≤
        segStart + (p.maxDurationMs + toleranceMs p + maxSilenceLenMs silences / 2) :=
      le_trans (min_le_left _ _) (by omega)
    exact postSteps_dur buf.totalMs segStart (p.maxDurationMs / 4) p.keepSilenceMs _ _
      hforce hbound
  · rw [hsc] at hcand
    obtain ⟨s, e, hmem, hminc, hstol, hsp⟩ := hcand
    obtain ⟨hse, hetot⟩ := hv (s, e) hmem
    simp only at hse hetot
    have hlen : e - s ≤ maxSilenceLenMs silences := len_le_maxSilenceLen _ _ _ hmem
    have htE : min (segStart + p.maxDurationMs) buf.totalMs ≤ segStart + p.maxDurationMs :=
      min_le_left _ _
    have hforce : segStart < max (segStart + minChunkMs p) sp :=
      lt_of_lt_of_le (by omega) (le_max_left _ _)
    have hbound : max (segStart + minChunkMs p) sp ≤
        segStart + (p.maxDurationMs + toleranceMs p + maxSilenceLenMs silences / 2) := by
      apply max_le
      · omega
      · omega
    exact postSteps_dur buf.totalMs segStart (p.maxDurationMs / 4) p.keepSilenceMs _ _
      hforce hbound

/-- The fuel argument of `sweepAux` is semantically inert: any two sufficient
fuels give the same segment list, so `sweepSegments` (fuel `totalMs`) computes
the source's unbounded `while` loop. -/
lemma sweepAux_fuel_irrelevant (buf : AudioBuffer) (p : SplitParams)
    (silences : List (Nat × Nat)) :
    ∀ (f₁ f₂ segStart silenceIdx segIndex : Nat),
      buf.totalMs - segStart ≤ f₁ → buf.totalMs - segStart ≤ f₂ →
      sweepAux buf p silences f₁ segStart silenceIdx segIndex =
        sweepAux buf p silences f₂ segStart silenceIdx segIndex := by
  intro f₁
  induction f₁ with
  | zero =>
    intro f₂ segStart silenceIdx segIndex h1 h2
    have hge : ¬ segStart < buf.totalMs := by omega
    cases f₂ <;> simp [sweepAux, hge]
  | succ f₁ ih =>
    intro f₂ segStart silenceIdx segIndex h1 h2
    by_cases hlt : segStart < buf.totalMs
    · have hprog := sweepEnd_gt buf p silences segStart silenceIdx hlt
      cases f₂ with
      | zero => omega
      | succ f₂ =>
        simp only [sweepAux, if_pos hlt]
        have hrec := ih f₂ (sweepEnd buf p silences segStart silenceIdx)
          (sweepNextIdx buf p silences segStart silenceIdx)
        by_cases hdrop : dropChunk buf p segStart (sweepEnd buf p silences segStart silenceIdx)
        · simp only [if_pos hdrop]
          rw [hrec segIndex (by omega) (by omega)]
        · simp only [if_neg hdrop]
          rw [hrec (segIndex + 1) (by omega) (by omega)]
    · cases f₂ <;> simp [sweepAux, hlt]

/-- Coverage: run from any cursor inside the buffer with enough fuel, the sweep
produces contiguous forward segments ending exactly at `totalMs`. -/
lemma sweepAux_chain (buf : AudioBuffer) (p : SplitParams) (silences : List (Nat × Nat))
    (hv : ∀ pr ∈ silences, pr.1 < pr.2 ∧ pr.2 ≤ buf.totalMs) :
    ∀ (fuel segStart silenceIdx segIndex : Nat),
      buf.totalMs - segStart ≤ fuel → segStart ≤ buf.totalMs →
      chainCovers buf.totalMs segStart
        (sweepAux buf p silences fuel segStart silenceIdx segIndex) = true := by
  intro fuel
  induction fuel with
  | zero =>
    intro segStart silenceIdx segIndex h1 h2
    have : segStart = buf.totalMs := by omega
    simp [sweepAux, chainCovers, this]
  | succ fuel ih =>
    intro segStart silenceIdx segIndex h1 h2
    by_cases hlt : segStart < buf.totalMs
    · have hprog := sweepEnd_gt buf p silences segStart silenceIdx hlt
      have hle := sweepEnd_le buf p silences segStart silenceIdx hv hlt
      have hrec := ih (sweepEnd buf p silences segStart silenceIdx)
        (sweepNextIdx buf p silences segStart silenceIdx)
      simp only [sweepAux, if_pos hlt]
      by_cases hdrop : dropChunk buf p segStart (sweepEnd buf p silences segStart silenceIdx)
      · simp only [if_pos hdrop, chainCovers]
        rw [hrec segIndex (by omega) hle]
        simp [hprog]
      · simp only [if_neg hdrop, chainCovers]
        rw [hrec (segIndex + 1) (by omega) hle]
        simp [hprog]
    · have : segStart = buf.totalMs := by omega
      cases fuel <;> simp [sweepAux, hlt, chainCovers, this]

/-- Per-segment duration bound over the whole sweep. -/
lemma sweepAux_duration (buf : AudioBuffer) (p : SplitParams) (silences : List (Nat × Nat))
    (hmd : 1 ≤ p.maxDurationMs)
    (hv : ∀ pr ∈ silences, pr.1 < pr.2 ∧ pr.2 ≤ buf.totalMs) :
    ∀ (fuel segStart silenceIdx segIndex : Nat),
      ∀ sg ∈ sweepAux buf p silences fuel segStart silenceIdx segIndex,
        sg.endMs - sg.startMs ≤
          p.maxDurationMs + toleranceMs p + maxSilenceLenMs silences / 2 + p.keepSilenceMs := by
  intro fuel
  induction fuel with
  | zero => intro segStart silenceIdx segIndex sg hsg; simp [sweepAux] at hsg
  | succ fuel ih =>
    intro segStart silenceIdx segIndex sg hsg
    by_cases hlt : segStart < buf.totalMs
    · have hdur := sweepEnd_duration buf p silences segStart silenceIdx hmd hv hlt
      simp only [sweepAux, if_pos hlt] at hsg
      by_cases hdrop : dropChunk buf p segStart (sweepEnd buf p silences segStart silenceIdx)
      · simp only [if_pos hdrop, List.mem_cons] at hsg
        rcases hsg with rfl | hsg
        · exact hdur
        · exact ih _ _ _ sg hsg
      · simp only [if_neg hdrop, List.mem_cons] at hsg
        rcases hsg with rfl | hsg
        · exact hdur
        · exact ih _ _ _ sg hsg
    · simp [sweepAux, hlt] at hsg

/-- Membership is invariant under the silence sort. -/
lemma mem_insertByStart (pr q : Nat × Nat) :
    ∀ l : List (Nat × Nat), q ∈ insertByStart pr l ↔ q = pr ∨ q ∈ l := by
  intro l
  induction l with
  | nil => simp [insertByStart]
  | cons hd tl ih =>
    simp only [insertByStart]
    split_ifs with hle
    · simp only [List.mem_cons, ih]
      tauto
    · simp only [List.mem_cons]

lemma mem_sortSilences (q : Nat × Nat) :
    ∀ l : List (Nat × Nat), q ∈ sortSilences l ↔ q ∈ l := by
  intro l
  induction l with
  | nil => simp [sortSilences]
  | cons hd tl ih =>
    simp only [sortSilences, mem_insertByStart, ih, List.mem_cons]

/-! ## Properties of the Python string model -/

lemma head_dropWhile_false (p : Char → Bool) :
    ∀ (l : PyStr) (c : Char) (t : PyStr), l.dropWhile p = c :: t → p c = false := by
  intro l
  induction l with
  | nil => intro c t h; simp [List.dropWhile] at h
  | cons a l ih =>
    intro c t h
    rw [List.dropWhile_cons] at h
    by_cases hp : p a
    · rw [if_pos hp] at h
      exact ih c t h
    · rw [if_neg hp] at h
      injection h with h1 _
      subst h1
      exact Bool.eq_false_iff.mpr hp

/-- `rstrip` only removes a (whitespace) suffix. -/
lemma pyRStrip_append (u : PyStr) :
    u = pyRStrip u ++ (u.reverse.takeWhile isPySpace).reverse := by
  unfold pyRStrip
  calc u = u.reverse.reverse := (List.reverse_reverse u).symm
    _ = (u.reverse.takeWhile isPySpace ++ u.reverse.dropWhile isPySpace).reverse := by
        rw [List.takeWhile_append_dropWhile]
    _ = (u.reverse.dropWhile isPySpace).reverse ++ (u.reverse.takeWhile isPySpace).reverse := by
        rw [List.reverse_append]

lemma pyStrip_head_not_space (s : PyStr) (c : Char) (t : PyStr) (h : pyStrip s = c :: t) :
    isPySpace c = false := by
  unfold pyStrip at h
  have hap := pyRStrip_append (pyLStrip s)
  rw [h] at hap
  unfold pyLStrip at hap
  exact head_dropWhile_false isPySpace s c _ hap

lemma pyStrip_last_not_space (s : PyStr) (c : Char) (t : PyStr)
    (h : (pyStrip s).reverse = c :: t) : isPySpace c = false := by
  unfold pyStrip pyRStrip at h
  rw [List.reverse_reverse] at h
  exact head_dropWhile_false isPySpace _ c t h

lemma dropWhile_eq_self_of_head (p : Char → Bool) (l : PyStr)
    (h : ∀ c t, l = c :: t → p c = false) : l.dropWhile p = l := by
  cases l with
  | nil => rfl
  | cons a t =>
    rw [List.dropWhile_cons, if_neg]
    simp [h a t rfl]

/-- A string whose first and last characters are not whitespace is unchanged
by `strip`. -/
lemma pyStrip_fix (r : PyStr) (hhead : ∀ c t, r = c :: t → isPySpace c = false)
    (hlast : ∀ c t, r.reverse = c :: t → isPySpace c = false) : pyStrip r = r := by
  unfold pyStrip pyLStrip pyRStrip
  rw [dropWhile_eq_self_of_head isPySpace r hhead]
  rw [dropWhile_eq_self_of_head isPySpace r.reverse hlast, List.reverse_reverse]

lemma pyStrip_idem (s : PyStr) : pyStrip (pyStrip s) = pyStrip s := by
  apply pyStrip_fix
  · intro c t h
    exact pyStrip_head_not_space s c t h
  · intro c t h
    exact pyStrip_last_not_space s c t h

lemma all_space_of_pyStrip_eq_nil (s : PyStr) (h : pyStrip s = []) :
    ∀ c ∈ s, isPySpace c = true := by
  unfold pyStrip pyRStrip pyLStrip at h
  have h2 : (s.dropWhile isPySpace).reverse.dropWhile isPySpace = [] := by
    rwa [List.reverse_eq_nil_iff] at h
  have h3 := List.dropWhile_eq_nil_iff.mp h2
  intro c hc
  rw [← List.takeWhile_append_dropWhile (p := isPySpace) (l := s)] at hc
  rcases List.mem_append.mp hc with h4 | h4
  · exact List.mem_takeWhile_imp h4
  · exact h3 c (List.mem_reverse.mpr h4)

lemma pyJoin_ne_nil (sep : PyStr) (k : PyStr) (rest : List PyStr) (hk : k ≠ []) :
    pyJoin sep (k :: rest) ≠ [] := by
  cases rest with
  | nil => simpa [pyJoin] using hk
  | cons y ys =>
    simp only [pyJoin]
    cases k with
    | nil => exact absurd rfl hk
    | cons c t => simp

/-- The first character of a join of non-empty strings is the first character
of one of them. -/
lemma pyJoin_head_mem (sep : PyStr) (L : List PyStr) (hne : ∀ k ∈ L, k ≠ [])
    (c : Char) (t : PyStr) (h : pyJoin sep L = c :: t) :
    ∃ k u, k ∈ L ∧ k = c :: u := by
  cases L with
  | nil => simp [pyJoin] at h
  | cons k rest =>
    have hk := hne k (List.mem_cons_self _ _)
    cases k with
    | nil => exact absurd rfl hk
    | cons a u =>
      cases rest with
      | nil =>
        simp only [pyJoin] at h
        injection h with h1 _
        subst h1
        exact ⟨a :: u, u, List.mem_cons_self _ _, rfl⟩
      | cons y ys =>
        simp only [pyJoin, List.cons_append] at h
        injection h with h1 _
        subst h1
        exact ⟨a :: u, u, List.mem_cons_self _ _, rfl⟩

/-- The last character of a join of non-empty strings is the last character of
one of them. -/
lemma pyJoin_last_mem (sep : PyStr) :
    ∀ (L : List PyStr), (∀ k ∈ L, k ≠ []) → ∀ c t, (pyJoin sep L).reverse = c :: t →
      ∃ k u, k ∈ L ∧ k.reverse = c :: u := by
  intro L
  induction L with
  | nil => intro _ c t h; simp [pyJoin] at h
  | cons k rest ih =>
    intro hne c t h
    cases rest with
    | nil =>
      simp only [pyJoin] at h
      exact ⟨k, t, List.mem_cons_self _ _, h⟩
    | cons y ys =>
      have hJne : pyJoin sep (y :: ys) ≠ [] := pyJoin_ne_nil sep y ys (hne y (by simp))
      rcases hJr : (pyJoin sep (y :: ys)).reverse with _ | ⟨d, v⟩
      · exact absurd (by simpa [List.reverse_eq_nil_iff] using hJr) hJne
      · simp only [pyJoin] at h
        rw [List.reverse_append, hJr, List.cons_append] at h
        injection h with h1 _
        subst h1
        obtain ⟨k2, u2, hmem, hrev⟩ := ih (fun q hq => hne q (List.mem_cons_of_mem _ hq)) d v hJr
        exact ⟨k2, u2, List.mem_cons_of_mem _ hmem, hrev⟩

/-- The source's `strip`-then-filter generator equals filter-after-map. -/
lemma filter_strip_comm (parts : List PyStr) :
    (parts.filter (fun part => !(pyStrip part).isEmpty)).map pyStrip =
      (parts.map pyStrip).filter (fun t => !t.isEmpty) := by
  induction parts with
  | nil => rfl
  | cons a l ih =>
    simp only [List.filter_cons, List.map_cons]
    by_cases h : (pyStrip a).isEmpty
    · simp [h, ih]
    · simp [h, ih]

lemma assembleTranscript_eq (parts : List PyStr) :
    assembleTranscript parts =
      pyJoin ("\n\n".toList) ((parts.map pyStrip).filter (fun t => !t.isEmpty)) := by
  unfold assembleTranscript
  rw [filter_strip_comm]

lemma kept_mem (parts : List PyStr) (k : PyStr)
    (hk : k ∈ (parts.map pyStrip).filter (fun t => !t.isEmpty)) :
    (∃ s, k = pyStrip s) ∧ k ≠ [] := by
  obtain ⟨hmem, hcond⟩ := List.mem_filter.mp hk
  obtain ⟨s, _, rfl⟩ := List.mem_map.mp hmem
  refine ⟨⟨s, rfl⟩, ?_⟩
  intro hnil
  rw [hnil] at hcond
  simp at hcond

/-- A non-empty assembled transcript has no leading or trailing whitespace (in
particular no leading or trailing separator): it is its own `strip`. -/
lemma assembleTranscript_stripped (parts : List PyStr) :
    pyStrip (assembleTranscript parts) = assembleTranscript parts := by
  rw [assembleTranscript_eq]
  apply pyStrip_fix
  · intro c t hct
    obtain ⟨k, u, hkL, hk⟩ := pyJoin_head_mem _ _
      (fun k hk => (kept_mem parts k hk).2) c t hct
    obtain ⟨⟨s0, hs0⟩, _⟩ := kept_mem parts k hkL
    rw [hs0] at hk
    exact pyStrip_head_not_space s0 c u hk
  · intro c t hct
    obtain ⟨k, u, hkL, hk⟩ := pyJoin_last_mem _ _
      (fun k hk => (kept_mem parts k hk).2) c t hct
    obtain ⟨⟨s0, hs0⟩, _⟩ := kept_mem parts k hkL
    rw [hs0] at hk
    exact pyStrip_last_not_space s0 c u hk

lemma assembleTranscript_all_empty (parts : List PyStr)
    (h : ∀ part ∈ parts, pyStrip part = []) : assembleTranscript parts = [] := by
  rw [assembleTranscript_eq]
  have hF : (parts.map pyStrip).filter (fun t => !t.isEmpty) = [] := by
    rw [List.filter_eq_nil_iff]
    intro t ht
    obtain ⟨s0, hs0, rfl⟩ := List.mem_map.mp ht
    simp [h s0 hs0]
  rw [hF]
  rfl

lemma firstCharIdx_none_of_all (c : Char) (hc : isPySpace c = false) :
    ∀ (s : PyStr) (idx : Nat), (∀ d ∈ s, isPySpace d = true) →
      firstCharIdx c idx s = none := by
  intro s
  induction s with
  | nil => intro idx _; rfl
  | cons d rest ih =>
    intro idx hall
    simp only [firstCharIdx]
    rw [if_neg]
    · exact ih (idx + 1) (fun x hx => hall x (List.mem_cons_of_mem _ hx))
    · intro heq
      have hd := hall d (List.mem_cons_self _ _)
      rw [heq, hc] at hd
      exact Bool.noConfusion hd

/-! ## Properties of the corrector output extraction -/

/-- The extracted `text` is a `strip` image, hence `strip`-fixed. -/
lemma extractedText_strip (content : PyStr) :
    pyStrip (extractedText content) = extractedText content := by
  unfold extractedText
  rcases hfen : fencedSearch (pyStrip content) with _ | g
  · exact pyStrip_idem content
  · exact pyStrip_idem g

lemma firstCorrected_cons_hit (lib : JsonLib) (text : PyStr) (rest : List PyStr)
    (d : List (PyStr × PyVal)) (v : PyStr)
    (hstrip : pyStrip text = text) (hne : text ≠ [])
    (hparse : parseCandidate lib text = some d)
    (hget : dictGet d keyCorrected = some (.str v)) (hv : pyStrip v ≠ []) :
    firstCorrected lib (text :: rest) = some (pyStrip v) := by
  simp only [firstCorrected, hstrip, hparse, hget]
  rw [if_neg hne, if_pos hv]

lemma firstCorrected_none (lib : JsonLib) (hfail : ∀ c, parseCandidate lib c = none) :
    ∀ L : List PyStr, firstCorrected lib L = none := by
  intro L
  induction L with
  | nil => rfl
  | cons c rest ih =>
    simp only [firstCorrected]
    by_cases h : pyStrip c = []
    · rw [if_pos h]
      exact ih
    · rw [if_neg h, hfail (pyStrip c)]
      exact ih

lemma structuredSearch_none_of_space (content : PyStr)
    (h : ∀ c ∈ content, isPySpace c = true) : structuredSearch content = none := by
  unfold structuredSearch
  rw [firstCharIdx_none_of_all openBrace (by decide) content 0 h]

/-- With an empty extracted text, the candidate list degenerates. -/
lemma extractCandidates_of_nil (content : PyStr) (h : extractedText content = []) :
    extractCandidates content = [[]] := by
  unfold extractCandidates
  rcases hfen : fencedSearch (pyStrip content) with _ | g
  · have hps : pyStrip content = [] := by
      unfold extractedText at h
      rw [hfen] at h
      exact h
    rw [structuredSearch_none_of_space content (all_space_of_pyStrip_eq_nil content hps)]
    rw [h]
  · rw [h]

/-- The raise happens whenever the extracted text is empty, whatever the JSON
machinery does. -/
lemma extract_error_of_nil (lib : JsonLib) (content : PyStr)
    (h : extractedText content = []) :
    extract_corrected_transcript lib content = Except.error invalidPayloadMsg := by
  unfold extract_corrected_transcript
  rw [extractCandidates_of_nil content h, h]
  rfl

/-- Conversely, a non-empty extracted text never raises. -/
lemma extract_ne_error_of_ne_nil (lib : JsonLib) (content : PyStr)
    (h : extractedText content ≠ []) :
    extract_corrected_transcript lib content ≠ Except.error invalidPayloadMsg := by
  unfold extract_corrected_transcript
  rcases hfc : firstCorrected lib (extractCandidates content) with _ | v
  · dsimp only
    rw [if_pos h]
    intro hcontra
    cases hcontra
  · dsimp only
    intro hcontra
    cases hcontra

/-- Unparseable response: the raw extracted text is returned verbatim. -/
lemma extract_ok_of_unparseable (lib : JsonLib) (content : PyStr)
    (hfail : ∀ c, parseCandidate lib c = none) (h : extractedText content ≠ []) :
    extract_corrected_transcript lib content = Except.ok (extractedText content) := by
  unfold extract_corrected_transcript
  rw [firstCorrected_none lib hfail]
  dsimp only
  rw [if_pos h]

/-- Successful extraction: whenever the extracted text parses to a dict that
carries a non-empty string under `corrected_transcript`, its stripped value is
returned — this covers the bare-JSON, fenced-JSON, and repaired-JSON shapes. -/
lemma extract_hit (lib : JsonLib) (content : PyStr) (d : List (PyStr × PyVal)) (v : PyStr)
    (htext : extractedText content ≠ [])
    (hparse : parseCandidate lib (extractedText content) = some d)
    (hget : dictGet d keyCorrected = some (.str v)) (hv : pyStrip v ≠ []) :
    extract_corrected_transcript lib content = Except.ok (pyStrip v) := by
  have hhit : ∀ rest, firstCorrected lib (extractedText content :: rest) = some (pyStrip v) :=
    fun rest => firstCorrected_cons_hit lib _ rest d v (extractedText_strip content) htext
      hparse hget hv
  unfold extract_corrected_transcript extractCandidates
  rcases hfen : fencedSearch (pyStrip content) with _ | g
  · rcases hst : structuredSearch content with _ | snip
    · dsimp only
      rw [hhit]
    · dsimp only
      by_cases hcond : pyStrip snip ≠ [] ∧ pyStrip snip ≠ extractedText content
      · rw [if_pos hcond, hhit]
      · rw [if_neg hcond, hhit]
  · dsimp only
    rw [hhit]

/-! ## Concrete inputs used by witnesses and counterexamples -/

/-- A 1000 ms buffer that is loud everywhere (RMS 100). -/
def bufA : AudioBuffer := ⟨1000, fun _ _ => 100⟩

/-- Parameters with a 400 ms duration cap. -/
def paramsA : SplitParams := ⟨400, 600, 0, 300, 20⟩

/-- A 3000 ms buffer that is loud everywhere. -/
def bufB : AudioBuffer := ⟨3000, fun _ _ => 100⟩

/-- Parameters with a 1000 ms duration cap. -/
def paramsB : SplitParams := ⟨1000, 600, 0, 300, 20⟩

/-- A 300 ms buffer (shorter than the caps above). -/
def bufShort : AudioBuffer := ⟨300, fun _ _ => 100⟩

/-- Parameters with `max_duration_ms = 0` (the invalid value). -/
def paramsZero : SplitParams := ⟨0, 600, 0, 300, 20⟩

/-! ## Claims about the segmenter -/

/-- C1: for every audio buffer with `totalMs > maxDurationMs` and every valid
parameter set (and silences detected inside the buffer), the segments produced
by the sweep — exported chunks and dropped near-silent fragments together —
are contiguous, non-overlapping, start at 0, and cover `[0, totalMs)` exactly:
each iteration's segment begins where the previous ended and the final one
ends at `totalMs`. -/
theorem segmenter_coverage (buf : AudioBuffer) (p : SplitParams)
    (silences : List (Nat × Nat)) (outputDirGiven : Bool)
    (hmd : 1 ≤ p.maxDurationMs) (hlt : p.maxDurationMs < buf.totalMs)
    (hv : ∀ pr ∈ silences, pr.1 < pr.2 ∧ pr.2 ≤ buf.totalMs) :
    (split_audio_on_silence buf silences p outputDirGiven).result =
      .ok (.chunkFiles (sweepSegments buf p (sortSilences silences)))
    ∧ chainCovers buf.totalMs 0 (sweepSegments buf p (sortSilences silences)) = true := by
  constructor
  · unfold split_audio_on_silence
    rw [if_neg (by omega), if_neg (by omega)]
  · have hv2 : ∀ pr ∈ sortSilences silences, pr.1 < pr.2 ∧ pr.2 ≤ buf.totalMs := by
      intro pr hpr
      exact hv pr ((mem_sortSilences pr silences).mp hpr)
    exact sweepAux_chain buf p (sortSilences silences) hv2 buf.totalMs 0 0 1
      (by omega) (by omega)

/-- Witness for C1 at a concrete input. -/
theorem segmenter_coverage_witness :
    (split_audio_on_silence bufA [(450, 700)] paramsA false).result =
      .ok (.chunkFiles (sweepSegments bufA paramsA (sortSilences [(450, 700)])))
    ∧ chainCovers 1000 0 (sweepSegments bufA paramsA (sortSilences [(450, 700)])) = true :=
  segmenter_coverage bufA paramsA [(450, 700)] false (by decide) (by decide) (by decide)

/-- C10: for every parameter set passing the `maxDurationMs > 0` precondition,
each iteration of the sweep computes a segment end strictly greater than the
segment start, so the cursor strictly increases (by at least 1 ms) and the
remaining distance to `totalMs` strictly decreases, in every branch. -/
theorem sweep_progress (buf : AudioBuffer) (p : SplitParams)
    (silences : List (Nat × Nat)) (segStart silenceIdx : Nat)
    (_hmd : 1 ≤ p.maxDurationMs) (h : segStart < buf.totalMs) :
    segStart < sweepEnd buf p silences segStart silenceIdx
    ∧ buf.totalMs - sweepEnd buf p silences segStart silenceIdx
        < buf.totalMs - segStart := by
  have h1 := sweepEnd_gt buf p silences segStart silenceIdx h
  exact ⟨h1, by omega⟩

/-- Witness for C10 at a concrete input. -/
theorem sweep_progress_witness :
    0 < sweepEnd bufA paramsA [] 0 0
    ∧ 1000 - sweepEnd bufA paramsA [] 0 0 < 1000 - 0 :=
  sweep_progress bufA paramsA [] 0 0 (by decide) (by decide)

/-- C2 counterexample: with `keepSilenceMs = 0` and a single valid silence
interval `[600, 2600)` in a 3000 ms buffer, the first exported chunk runs to
the interval midpoint 1600 and has duration 1600 ms, exceeding
`maxDurationMs = 1000` — the claimed bound fails. -/
theorem duration_bound_cex :
    (split_audio_on_silence bufB [(600, 2600)] paramsB false).result =
      .ok (.chunkFiles
        [⟨0, 1600, some 1⟩, ⟨1600, 2600, some 2⟩, ⟨2600, 3000, some 3⟩])
    ∧ ¬ (1600 - 0 ≤ paramsB.maxDurationMs + paramsB.keepSilenceMs) :=
  ⟨rfl, by decide⟩

/-- C2 amended: every segment (in particular every exported chunk) has duration
at most `maxDurationMs + toleranceMs + ⌊maxSilenceLen/2⌋ + keepSilenceMs`,
where `toleranceMs = max(minSilenceLenMs, maxDurationMs/5)` and `maxSilenceLen`
is the longest detected silence interval; the extra two terms account for a
silence midpoint chosen up to `toleranceMs` past the target. -/
theorem duration_bound_amended (buf : AudioBuffer) (p : SplitParams)
    (silences : List (Nat × Nat)) (hmd : 1 ≤ p.maxDurationMs)
    (hv : ∀ pr ∈ silences, pr.1 < pr.2 ∧ pr.2 ≤ buf.totalMs) :
    ∀ sg ∈ sweepSegments buf p silences,
      sg.endMs - sg.startMs ≤
        p.maxDurationMs + toleranceMs p + maxSilenceLenMs silences / 2 + p.keepSilenceMs :=
  fun sg hsg => sweepAux_duration buf p silences hmd hv buf.totalMs 0 0 1 sg hsg

/-- Witness for the amended C2 at a concrete input. -/
theorem duration_bound_amended_witness :
    (⟨0, 1600, some 1⟩ : Segment) ∈ sweepSegments bufB paramsB [(600, 2600)]
    ∧ 1600 - 0 ≤ paramsB.maxDurationMs + toleranceMs paramsB
        + maxSilenceLenMs [(600, 2600)] / 2 + paramsB.keepSilenceMs :=
  ⟨by decide, duration_bound_amended bufB paramsB [(600, 2600)] (by decide) (by decide)
    ⟨0, 1600, some 1⟩ (by decide)⟩

/-- C5: whenever `totalMs ≤ maxDurationMs` (with a positive cap), the call
returns the original file itself — a single chunk that is the whole buffer —
after only the initial decode: no silence detection, no directory creation,
no chunk export, hence no copy or re-encoding. -/
theorem segment_short_circuit (buf : AudioBuffer) (p : SplitParams)
    (silences : List (Nat × Nat)) (outputDirGiven : Bool)
    (hmd : 1 ≤ p.maxDurationMs) (hle : buf.totalMs ≤ p.maxDurationMs) :
    split_audio_on_silence buf silences p outputDirGiven =
      { effects := [.readSource], result := .ok .originalFile } := by
  unfold split_audio_on_silence
  rw [if_neg (by omega), if_pos hle]

/-- Witness for C5 at a concrete input. -/
theorem segment_short_circuit_witness :
    split_audio_on_silence bufShort [] paramsA false =
      { effects := [.readSource], result := .ok .originalFile } :=
  segment_short_circuit bufShort paramsA [] false (by decide) (by decide)

/-- C6 counterexample: `split_audio_on_silence` with `max_duration = 0` does
raise the invalid-argument error, but only after decoding the source media
file (`AudioSegment.from_file` on audio.py line 137 precedes the validation on
lines 139-141), so the error is not raised before any I/O. -/
theorem invalid_argument_cex :
    (split_audio_on_silence bufA [] paramsZero false).result =
      .error "max_duration must be positive"
    ∧ (split_audio_on_silence bufA [] paramsZero false).effects = [SplitEff.readSource]
    ∧ [SplitEff.readSource] ≠ ([] : List SplitEff) :=
  ⟨rfl, rfl, by decide⟩

/-- C6 amended: `extract_video_frames` validates `intervalSec > 0` before any
I/O (no mkdir, no external tool, no glob); `split_audio_on_silence` raises on
a non-positive `maxDurationMs` before silence detection, directory creation,
or any export, but after the source audio file has been decoded. -/
theorem invalid_argument_amended :
    (∀ intervalSeconds : Int, intervalSeconds ≤ 0 →
        extract_video_frames intervalSeconds =
          ([], .error "interval_seconds must be positive"))
    ∧ (∀ (buf : AudioBuffer) (silences : List (Nat × Nat)) (p : SplitParams)
          (outputDirGiven : Bool), p.maxDurationMs = 0 →
        split_audio_on_silence buf silences p outputDirGiven =
          { effects := [.readSource], result := .error "max_duration must be positive" }) := by
  constructor
  · intro i hi
    unfold extract_video_frames
    rw [if_pos hi]
  · intro buf silences p outputDirGiven h0
    unfold split_audio_on_silence
    rw [if_pos h0]

/-- Witness for the amended C6 at concrete inputs. -/
theorem invalid_argument_amended_witness :
    extract_video_frames 0 = ([], .error "interval_seconds must be positive")
    ∧ split_audio_on_silence bufA [] paramsZero false =
        { effects := [.readSource], result := .error "max_duration must be positive" } :=
  ⟨invalid_argument_amended.1 0 (by decide),
    invalid_argument_amended.2 bufA [] paramsZero false rfl⟩

/-! ## Claims about the pipeline and the corrector -/

/-- Following the claim's words (for C3): the concatenation of the kept parts
joined by the blank-line separator. -/
def specSepJoin : List PyStr → PyStr
  | [] => []
  | [t] => t
  | t :: u :: rest => t ++ "\n\n".toList ++ specSepJoin (u :: rest)

lemma pyJoin_eq_specSepJoin : ∀ L : List PyStr, pyJoin ("\n\n".toList) L = specSepJoin L := by
  intro L
  induction L with
  | nil => rfl
  | cons x rest ih =>
    cases rest with
    | nil => rfl
    | cons y ys =>
      simp only [pyJoin, specSepJoin]
      rw [ih]

/-- C3: the assembled transcript equals the concatenation of `trim(part)` for
exactly those parts whose trimmed text is non-empty, joined by `"\n\n"` in
chunk-index order; when every part trims to empty the transcript is the empty
string (the model is a total function, so no error is raised); and the result
carries no leading or trailing separator — it is its own `strip`. -/
theorem transcript_join_spec (parts : List PyStr) :
    assembleTranscript parts =
      specSepJoin ((parts.map pyStrip).filter (fun t => !t.isEmpty))
    ∧ ((∀ part ∈ parts, pyStrip part = []) → assembleTranscript parts = [])
    ∧ pyStrip (assembleTranscript parts) = assembleTranscript parts := by
  refine ⟨?_, fun h => assembleTranscript_all_empty parts h,
    assembleTranscript_stripped parts⟩
  rw [assembleTranscript_eq, pyJoin_eq_specSepJoin]

/-- Witness for C3: the spec's own example, plus an all-whitespace input. -/
theorem transcript_join_spec_witness :
    assembleTranscript ["first".toList, [], "  ".toList, "second".toList] =
      specSepJoin (((["first".toList, [], "  ".toList, "second".toList] : List PyStr).map
        pyStrip).filter (fun t => !t.isEmpty))
    ∧ assembleTranscript ["first".toList, [], "  ".toList, "second".toList] =
        "first\n\nsecond".toList
    ∧ assembleTranscript [[], " ".toList] = [] := by
  refine ⟨(transcript_join_spec _).1, by decide, (transcript_join_spec _).2.1 (by decide)⟩

/-- C4: with the correction step succeeding, a summarizer failure is caught:
the result still carries the full transcript, `summary` is `none`, and
`summarizer_error` is a non-empty string; on success `summary` holds the text
and `summarizer_error` is absent — exactly one of the two is populated, and a
summarizer failure never escapes `process_video`. -/
theorem summary_isolation (asrBackend : PyStr) (enableImageContext : Bool)
    (chunkTexts : List PyStr) (correctStage : PyStr → Except PyExc PyStr)
    (summarize : PyStr → Except PyExc PyStr) (corrected : PyStr)
    (hb : pyLower asrBackend = "bailian".toList ∨ pyLower asrBackend = "local".toList)
    (hc : correctionOutcome (pyLower asrBackend) enableImageContext correctStage
        (assembleTranscript chunkTexts) = .ok corrected) :
    (∀ e, summarize corrected = .error e →
        process_video asrBackend enableImageContext chunkTexts correctStage summarize =
          .ok ⟨corrected, none, some (excString e)⟩ ∧ excString e ≠ [])
    ∧ (∀ s, summarize corrected = .ok s →
        process_video asrBackend enableImageContext chunkTexts correctStage summarize =
          .ok ⟨corrected, some s, none⟩)
    ∧ (∀ r, process_video asrBackend enableImageContext chunkTexts correctStage summarize =
          .ok r → r.transcript = corrected ∧ (r.summary = none ↔ r.summarizer_error ≠ none)) := by
  have hpv : process_video asrBackend enableImageContext chunkTexts correctStage summarize =
      match summarize corrected with
      | .ok s => .ok ⟨corrected, some s, none⟩
      | .error e => .ok ⟨corrected, none, some (excString e)⟩ := by
    unfold process_video
    dsimp only
    rw [if_pos hb, hc]
  refine ⟨?_, ?_, ?_⟩
  · intro e he
    rw [hpv, he]
    refine ⟨rfl, ?_⟩
    unfold excString
    split_ifs with hm
    · exact e.className_ne
    · exact hm
  · intro s hs
    rw [hpv, hs]
  · intro r hr
    rw [hpv] at hr
    rcases hsum : summarize corrected with e | s
    · rw [hsum] at hr
      injection hr with h2
      subst h2
      exact ⟨rfl, by simp⟩
    · rw [hsum] at hr
      injection hr with h2
      subst h2
      exact ⟨rfl, by simp⟩

/-- A concrete raised exception. -/
def excBoom : PyExc := ⟨"boom".toList, "RuntimeError".toList, by decide⟩

/-- Witness for C4 at a concrete input (an always-raising summarizer). -/
theorem summary_isolation_witness :
    process_video "bailian".toList false ["hello".toList] (fun t => .ok t)
        (fun _ => .error excBoom) =
      .ok ⟨"hello".toList, none, some "boom".toList⟩
    ∧ "boom".toList ≠ ([] : PyStr) := by
  have h := (summary_isolation "bailian".toList false ["hello".toList] (fun t => .ok t)
    (fun _ => .error excBoom) ("hello".toList) (Or.inl (by decide)) rfl).1 excBoom rfl
  exact ⟨h.1, h.2⟩

/-- C7: the visual-correction stage is a no-op passthrough that does not raise
when zero frames were extracted, and when every extracted frame's description
trims to empty. -/
theorem visual_noop (transcript : PyStr) (frameOutputDirGiven : Bool) (frames : List Nat)
    (describe : Nat → PyStr) (readBackFails : Nat → Bool)
    (correct : PyStr → List PyStr → Except PyExc PyStr) :
    (frames = [] →
      (apply_image_context_corrections transcript frameOutputDirGiven frames describe
          readBackFails correct).result = .ok transcript)
    ∧ ((∀ f ∈ frames, pyStrip (describe f) = []) →
      (apply_image_context_corrections transcript frameOutputDirGiven frames describe
          readBackFails correct).result = .ok transcript) := by
  constructor
  · intro h
    subst h
    rfl
  · intro h
    unfold apply_image_context_corrections
    by_cases hf : frames = []
    · rw [if_pos hf]
    · rw [if_neg hf]
      have hctx : imageContextOf frames describe readBackFails = [] := by
        rw [imageContextOf, List.filterMap_eq_nil_iff]
        intro f hf2
        by_cases hr : readBackFails f
        · simp [hr]
        · simp [hr, h f hf2]
      dsimp only
      rw [if_pos hctx]

/-- Witness for C7 at concrete inputs. -/
theorem visual_noop_witness :
    (apply_image_context_corrections "t".toList false [] (fun _ => "d".toList)
        (fun _ => false) (fun t _ => .ok t)).result = .ok "t".toList
    ∧ (apply_image_context_corrections "t".toList false [1, 2] (fun _ => "  ".toList)
        (fun _ => false) (fun t _ => .ok t)).result = .ok "t".toList := by
  constructor
  · exact (visual_noop "t".toList false [] _ _ _).1 rfl
  · exact (visual_noop "t".toList false [1, 2] _ _ _).2 (by decide)

/-- C9: when frames and non-empty descriptions exist, a raising correction
backend makes the whole stage raise — the no-op passthrough applies only to
missing input — while the scoped frame temp directory (created when no frame
directory was supplied) is still cleaned on that exit path. -/
theorem correction_error_propagates (transcript : PyStr) (frameOutputDirGiven : Bool)
    (frames : List Nat) (describe : Nat → PyStr) (readBackFails : Nat → Bool)
    (correct : PyStr → List PyStr → Except PyExc PyStr) (e : PyExc)
    (hf : frames ≠ [])
    (hctx : imageContextOf frames describe readBackFails ≠ [])
    (herr : correct transcript (imageContextOf frames describe readBackFails) = .error e) :
    (apply_image_context_corrections transcript frameOutputDirGiven frames describe
        readBackFails correct).result = .error e
    ∧ (frameOutputDirGiven = false →
        (apply_image_context_corrections transcript frameOutputDirGiven frames describe
            readBackFails correct).tempDirCleaned = true) := by
  unfold apply_image_context_corrections
  rw [if_neg hf]
  dsimp only
  rw [if_neg hctx, herr]
  constructor
  · rfl
  · intro hdir
    rw [hdir]
    rfl

/-- An always-raising correction backend. -/
def correctFail : PyStr → List PyStr → Except PyExc PyStr := fun _ _ => .error excBoom

/-- Witness for C9 at a concrete input. -/
theorem correction_error_propagates_witness :
    (apply_image_context_corrections "t".toList false [1] (fun _ => "desc".toList)
        (fun _ => false) correctFail).result = .error excBoom
    ∧ (apply_image_context_corrections "t".toList false [1] (fun _ => "desc".toList)
        (fun _ => false) correctFail).tempDirCleaned = true := by
  have h := correction_error_propagates "t".toList false [1] (fun _ => "desc".toList)
    (fun _ => false) correctFail excBoom (by decide) (by decide) rfl
  exact ⟨h.1, h.2 rfl⟩

/-- A JSON library on which every parse raises. -/
def jsonLibStub : JsonLib := ⟨fun _ => .error (), fun _ => .error ()⟩

/-- C8 counterexample: the response `"``````"` (an empty fenced block) is
non-empty, yet the extractor raises — so "raises if and only if the response
is empty" fails.  On this path no candidate is ever parsed (the only candidate
is the empty fenced body, which the loop skips), so the stub JSON library is
never consulted. -/
theorem corrector_extract_cex :
    extract_corrected_transcript jsonLibStub "``````".toList = .error invalidPayloadMsg
    ∧ "``````".toList ≠ ([] : PyStr) :=
  ⟨rfl, by decide⟩

/-- C8 amended: the extractor returns the stripped `corrected_transcript`
value whenever the fence-extracted text parses (directly or via the repair
parser) to a dict carrying a non-empty string under that key — covering the
bare-JSON, fenced-JSON and near-JSON shapes; on total unparseability it
returns the trimmed text after fenced-block extraction (the fence body when a
fence is present, otherwise the raw trimmed response); and it raises exactly
when that extracted text is empty — for empty or whitespace-only responses,
and also for a fenced block with an empty body. -/
theorem corrector_extract_amended (lib : JsonLib) (content : PyStr) :
    (∀ (d : List (PyStr × PyVal)) (v : PyStr), extractedText content ≠ [] →
        parseCandidate lib (extractedText content) = some d →
        dictGet d keyCorrected = some (.str v) → pyStrip v ≠ [] →
        extract_corrected_transcript lib content = .ok (pyStrip v))
    ∧ ((∀ c, parseCandidate lib c = none) → extractedText content ≠ [] →
        extract_corrected_transcript lib content = .ok (extractedText content))
    ∧ (extract_corrected_transcript lib content = .error invalidPayloadMsg ↔
        extractedText content = []) := by
  refine ⟨fun d v h1 h2 h3 h4 => extract_hit lib content d v h1 h2 h3 h4,
    fun hfail h => extract_ok_of_unparseable lib content hfail h, ?_, ?_⟩
  · intro herr
    by_contra hne
    exact extract_ne_error_of_ne_nil lib content hne herr
  · exact fun h => extract_error_of_nil lib content h

/-- A JSON library that parses the response `"X"` to a dict with a padded
corrected transcript. -/
def jsonLibHit : JsonLib :=
  ⟨fun c =>
    if c = "X".toList then
      .ok (.dict [("corrected_transcript".toList, .str " y ".toList)])
    else .error (),
   fun _ => .error ()⟩

/-- Witness for the amended C8: a parsed hit returns the stripped value; an
unparseable non-empty response falls back to the trimmed text. -/
theorem corrector_extract_amended_witness :
    extract_corrected_transcript jsonLibHit "X".toList = .ok "y".toList
    ∧ extract_corrected_transcript jsonLibStub "hello".toList = .ok "hello".toList := by
  constructor
  · exact (corrector_extract_amended jsonLibHit "X".toList).1
      [("corrected_transcript".toList, PyVal.str " y ".toList)] (" y ".toList)
      (by decide) rfl rfl (by decide)
  · exact (corrector_extract_amended jsonLibStub "hello".toList).2.1
      (fun c => rfl) (by decide)
